import Mathlib

/-!
Verification of the snapit chunked file-transfer protocol.

The definitions below are a shallow embedding of the JavaScript source in
`frontend/src/lib/peer.js` (the React frontend) and, where noted, the legacy
`frontend/peer.js`.  Byte buffers (`ArrayBuffer` / `Uint8Array`) are modelled
as `List Nat` whose elements are byte values; a transfer id is represented by
its UTF-8 byte encoding.  JavaScript `DataView.setUint16`/`setUint32` store
their argument reduced modulo 2^16 / 2^32, which the embedding makes explicit.
-/

namespace Snapit

/-! ## Chunk codec (`encodeChunkFrame` / `decodeChunkFrame`) -/

/-- Big-endian bytes stored by `DataView.setUint16` (value truncated mod 2^16). -/
def u16be (n : Nat) : List Nat := [n / 256 % 256, n % 256]

/-- Big-endian bytes stored by `DataView.setUint32` (value truncated mod 2^32). -/
def u32be (n : Nat) : List Nat :=
  [n / 16777216 % 256, n / 65536 % 256, n / 256 % 256, n % 256]

/-- `encodeChunkFrame(transferId, chunkIndex, arrayBuffer)` from
`frontend/src/lib/peer.js` (identical in `frontend/peer.js`): a 10-byte
big-endian header (uint16 id length, uint32 chunk index, uint32 payload
length) followed by the UTF-8 id bytes and the payload bytes.  The source
performs no bounds check on the id length; `setUint16` silently truncates. -/
def encodeChunkFrame (idBytes : List Nat) (chunkIndex : Nat) (payload : List Nat) :
    List Nat :=
  u16be idBytes.length ++ u32be chunkIndex ++ u32be payload.length ++ idBytes ++ payload

/-- The record returned by `decodeChunkFrame`. -/
structure ChunkFrame where
  transferId : List Nat
  chunkIndex : Nat
  payload : List Nat
deriving DecidableEq, Repr

/-- The id length declared by the first two header bytes of a buffer. -/
def declaredIdLength (buffer : List Nat) : Nat :=
  buffer.getD 0 0 * 256 + buffer.getD 1 0

/-- The payload length declared by header bytes 6..9 of a buffer. -/
def declaredPayloadLength (buffer : List Nat) : Nat :=
  buffer.getD 6 0 * 16777216 + buffer.getD 7 0 * 65536 +
    buffer.getD 8 0 * 256 + buffer.getD 9 0

/-- The chunk index declared by header bytes 2..5 of a buffer. -/
def declaredChunkIndex (buffer : List Nat) : Nat :=
  buffer.getD 2 0 * 16777216 + buffer.getD 3 0 * 65536 +
    buffer.getD 4 0 * 256 + buffer.getD 5 0

/-- `decodeChunkFrame(buffer)` from `frontend/src/lib/peer.js` (identical in
`frontend/peer.js`).  A buffer shorter than the 10-byte header makes
`DataView.getUint16`/`getUint32` throw, and a buffer too short for the
declared id length makes the `Uint8Array` view constructor throw: both are
modelled as `none`.  `buffer.slice(payloadStart, payloadStart + payloadLength)`
clamps to the end of the buffer, so a payload shorter than declared is
returned truncated, not rejected. -/
def decodeChunkFrame (buffer : List Nat) : Option ChunkFrame :=
  if buffer.length < 10 then none
  else if buffer.length < 10 + declaredIdLength buffer then none
  else
    some { transferId := (buffer.drop 10).take (declaredIdLength buffer)
           chunkIndex := declaredChunkIndex buffer
           payload := (buffer.drop (10 + declaredIdLength buffer)).take
             (declaredPayloadLength buffer) }

end Snapit

namespace Snapit

lemma u16be_length (n : Nat) : (u16be n).length = 2 := rfl

lemma u32be_length (n : Nat) : (u32be n).length = 4 := rfl

lemma encodeChunkFrame_length (idBytes : List Nat) (chunkIndex : Nat)
    (payload : List Nat) :
    (encodeChunkFrame idBytes chunkIndex payload).length =
      10 + idBytes.length + payload.length := by
  simp [encodeChunkFrame, u16be, u32be]
  omega

/-- The encoded frame written out as an explicit cons-list. -/
lemma encodeChunkFrame_eq (idBytes : List Nat) (chunkIndex : Nat)
    (payload : List Nat) :
    encodeChunkFrame idBytes chunkIndex payload =
      idBytes.length / 256 % 256 :: idBytes.length % 256 ::
      chunkIndex / 16777216 % 256 :: chunkIndex / 65536 % 256 ::
      chunkIndex / 256 % 256 :: chunkIndex % 256 ::
      payload.length / 16777216 % 256 :: payload.length / 65536 % 256 ::
      payload.length / 256 % 256 :: payload.length % 256 ::
      (idBytes ++ payload) := by
  simp [encodeChunkFrame, u16be, u32be]

lemma declaredIdLength_encode (idBytes : List Nat) (chunkIndex : Nat)
    (payload : List Nat) :
    declaredIdLength (encodeChunkFrame idBytes chunkIndex payload) =
      idBytes.length % 65536 := by
  rw [encodeChunkFrame_eq]
  simp [declaredIdLength]
  omega

lemma declaredChunkIndex_encode (idBytes : List Nat) (chunkIndex : Nat)
    (payload : List Nat) :
    declaredChunkIndex (encodeChunkFrame idBytes chunkIndex payload) =
      chunkIndex % 4294967296 := by
  rw [encodeChunkFrame_eq]
  simp [declaredChunkIndex]
  omega

lemma declaredPayloadLength_encode (idBytes : List Nat) (chunkIndex : Nat)
    (payload : List Nat) :
    declaredPayloadLength (encodeChunkFrame idBytes chunkIndex payload) =
      payload.length % 4294967296 := by
  rw [encodeChunkFrame_eq]
  simp [declaredPayloadLength]
  omega

lemma encodeChunkFrame_drop10 (idBytes : List Nat) (chunkIndex : Nat)
    (payload : List Nat) :
    (encodeChunkFrame idBytes chunkIndex payload).drop 10 = idBytes ++ payload := by
  rw [encodeChunkFrame_eq]
  rfl

/-- Claim C1: for every transfer id whose UTF-8 encoding is at most 65535
bytes, every chunk index at most 2^32-1, and every payload that fits the
32-bit length field (in the JavaScript runtime a `Uint8Array` can never
exceed 2^32-1 bytes), decoding the frame produced by `encodeChunkFrame`
yields exactly the original id bytes, chunk index, and payload bytes; both
functions are pure Lean functions, hence deterministic. -/
theorem encode_decode_roundtrip (idBytes : List Nat) (chunkIndex : Nat)
    (payload : List Nat) (hid : idBytes.length ≤ 65535)
    (hidx : chunkIndex ≤ 4294967295) (hp : payload.length ≤ 4294967295) :
    decodeChunkFrame (encodeChunkFrame idBytes chunkIndex payload) =
      some ⟨idBytes, chunkIndex, payload⟩ := by
  have hlen := encodeChunkFrame_length idBytes chunkIndex payload
  have hdid := declaredIdLength_encode idBytes chunkIndex payload
  have hdidx := declaredChunkIndex_encode idBytes chunkIndex payload
  have hdpl := declaredPayloadLength_encode idBytes chunkIndex payload
  have hid' : idBytes.length % 65536 = idBytes.length := Nat.mod_eq_of_lt (by omega)
  have hidx' : chunkIndex % 4294967296 = chunkIndex := Nat.mod_eq_of_lt (by omega)
  have hp' : payload.length % 4294967296 = payload.length := Nat.mod_eq_of_lt (by omega)
  have hdrop := encodeChunkFrame_drop10 idBytes chunkIndex payload
  unfold decodeChunkFrame
  rw [hlen, hdid, hid', hdidx, hidx', hdpl, hp']
  rw [if_neg (by omega), if_neg (by omega), hdrop]
  have h1 : (idBytes ++ payload).take idBytes.length = idBytes :=
    List.take_left idBytes payload
  have h2 : (encodeChunkFrame idBytes chunkIndex payload).drop (10 + idBytes.length)
      = payload := by
    rw [← List.drop_drop, hdrop]
    exact List.drop_left idBytes payload
  rw [h1, h2, List.take_length]

/-- Witness for C1: the round-trip theorem applied at a concrete frame. -/
theorem encode_decode_roundtrip_witness :
    decodeChunkFrame (encodeChunkFrame [97, 98] 7 [1, 2, 3]) =
      some ⟨[97, 98], 7, [1, 2, 3]⟩ :=
  encode_decode_roundtrip [97, 98] 7 [1, 2, 3] (by decide) (by decide) (by decide)

/-- Claim C8 counterexample: `encodeChunkFrame` does not fail on a transfer id
of 65536 UTF-8 bytes.  It succeeds and silently writes the id length reduced
modulo 2^16 — here 0 — into the 16-bit header field, because the source
performs no length check and `DataView.setUint16` truncates. -/
theorem encode_no_length_check_cex :
    declaredIdLength (encodeChunkFrame (List.replicate 65536 97) 3 [5]) = 0 ∧
      (encodeChunkFrame (List.replicate 65536 97) 3 [5]).length = 10 + 65536 + 1 := by
  constructor
  · rw [declaredIdLength_encode, List.length_replicate]
  · rw [encodeChunkFrame_length, List.length_replicate]
    rfl

/-- Claim C8 (amended): `encodeChunkFrame` never fails; it always produces a
frame whose 16-bit header field holds the id length reduced modulo 65536, so
the true length is written exactly when the id encodes to at most 65535
bytes. -/
theorem encode_header_mod (idBytes : List Nat) (chunkIndex : Nat)
    (payload : List Nat) :
    declaredIdLength (encodeChunkFrame idBytes chunkIndex payload) =
        idBytes.length % 65536 ∧
      (idBytes.length ≤ 65535 →
        declaredIdLength (encodeChunkFrame idBytes chunkIndex payload) =
          idBytes.length) := by
  refine ⟨declaredIdLength_encode .., fun h => ?_⟩
  rw [declaredIdLength_encode]
  omega

/-- Witness for C8's amended theorem at a concrete input. -/
theorem encode_header_mod_witness :
    declaredIdLength (encodeChunkFrame [97] 0 []) = 1 % 65536 ∧
      declaredIdLength (encodeChunkFrame [97] 0 []) = 1 := by
  have h := encode_header_mod [97] 0 []
  exact ⟨h.1, h.2 (by decide)⟩

/-- Claim C9 counterexample: this 11-byte buffer declares a 0-byte id and a
5-byte payload, so it is shorter than the declared total 10 + 0 + 5 = 15
bytes, yet `decodeChunkFrame` does not fail: `buffer.slice` clamps and the
truncated 1-byte payload is returned. -/
theorem decode_truncated_payload_cex :
    decodeChunkFrame [0, 0, 0, 0, 0, 0, 0, 0, 0, 5, 42] =
        some ⟨[], 0, [42]⟩ ∧
      (11 : Nat) < 10 + declaredIdLength [0, 0, 0, 0, 0, 0, 0, 0, 0, 5, 42] +
        declaredPayloadLength [0, 0, 0, 0, 0, 0, 0, 0, 0, 5, 42] := by
  constructor
  · rfl
  · decide

/-- Claim C9 (amended): `decodeChunkFrame` fails exactly when the buffer is
shorter than the 10-byte header plus the declared id length; a buffer long
enough for header and id but shorter than the declared payload length does
not fail — the payload is silently truncated to the bytes available. -/
theorem decode_none_iff (buffer : List Nat) :
    decodeChunkFrame buffer = none ↔
      buffer.length < 10 + declaredIdLength buffer := by
  unfold decodeChunkFrame
  by_cases h10 : buffer.length < 10
  · simp only [if_pos h10, true_iff]
    omega
  · rw [if_neg h10]
    by_cases hid : buffer.length < 10 + declaredIdLength buffer
    · simp [if_pos hid, hid]
    · simp [if_neg hid, hid]

/-! ## Chunking (`splitFileIntoChunks` / `buildFileMetadata`) -/

/-- `CHUNK_SIZE = 16 * 1024` from `frontend/src/lib/peer.js`. -/
def CHUNK_SIZE : Nat := 16 * 1024

/-- `splitFileIntoChunks(file, chunkSize)`: a file is represented by its byte
size; each chunk is the half-open byte range `(start, end)` produced by
`file.slice(start, end)`.  `totalChunks = Math.ceil(file.size / chunkSize) || 1`:
the `|| 1` replaces a zero chunk count (empty file) by 1. -/
def splitFileIntoChunks (size chunkSize : Nat) : List (Nat × Nat) :=
  (List.range (if (size + chunkSize - 1) / chunkSize = 0 then 1
               else (size + chunkSize - 1) / chunkSize)).map fun index =>
    (index * chunkSize, min (index * chunkSize + chunkSize) size)

/-- The metadata fields of `buildFileMetadata(file)` that are functions of the
file alone (`id` is a random UUID and `createdAt` a clock read; they are kept
out of the pure model). -/
structure FileMetadataShape where
  size : Nat
  chunkSize : Nat
  totalChunks : Nat
deriving DecidableEq, Repr

/-- `buildFileMetadata(file)` from `frontend/src/lib/peer.js`: splits with the
default `CHUNK_SIZE` and records the number of chunks produced. -/
def buildFileMetadata (size : Nat) : FileMetadataShape :=
  { size := size
    chunkSize := CHUNK_SIZE
    totalChunks := (splitFileIntoChunks size CHUNK_SIZE).length }

lemma splitFileIntoChunks_length (size chunkSize : Nat) :
    (splitFileIntoChunks size chunkSize).length =
      max ((size + chunkSize - 1) / chunkSize) 1 := by
  simp only [splitFileIntoChunks, List.length_map, List.length_range]
  rcases Nat.eq_zero_or_pos ((size + chunkSize - 1) / chunkSize) with h | h
  · rw [h]
    simp
  · rw [if_neg (by omega), Nat.max_eq_left h]

lemma splitFileIntoChunks_get? (size chunkSize i : Nat)
    (hi : i < (splitFileIntoChunks size chunkSize).length) :
    (splitFileIntoChunks size chunkSize).get? i =
      some (i * chunkSize, min (i * chunkSize + chunkSize) size) := by
  simp only [splitFileIntoChunks, List.length_map, List.length_range] at hi ⊢
  rw [List.get?_eq_getElem?, List.getElem?_map, List.getElem?_range hi]
  rfl

/-- Claim C6: `totalChunks = ceil(size / chunkSize)` with a minimum of 1 (a
zero-byte file yields 1 chunk), and splitting yields exactly `totalChunks`
contiguous non-overlapping ranges covering the file: chunk `i` is the range
`[i*chunkSize, min(i*chunkSize + chunkSize, size))`, each chunk but the last
ends where the next begins, the first starts at 0, the last ends at `size`.
A 40960-byte file with chunk size 16384 splits into exactly the three chunks
of sizes 16384, 16384 and 8192. -/
theorem splitFileIntoChunks_spec (size chunkSize : Nat) (hcs : 0 < chunkSize) :
    (splitFileIntoChunks size chunkSize).length =
        max ((size + chunkSize - 1) / chunkSize) 1 ∧
      (buildFileMetadata size).totalChunks =
        max ((size + CHUNK_SIZE - 1) / CHUNK_SIZE) 1 ∧
      (size = 0 → (splitFileIntoChunks size chunkSize).length = 1) ∧
      (∀ i, i < (splitFileIntoChunks size chunkSize).length →
        (splitFileIntoChunks size chunkSize).get? i =
          some (i * chunkSize, min (i * chunkSize + chunkSize) size)) ∧
      (∀ i, i + 1 < (splitFileIntoChunks size chunkSize).length →
        min (i * chunkSize + chunkSize) size = (i + 1) * chunkSize) ∧
      ((splitFileIntoChunks size chunkSize).get? 0).map Prod.fst = some 0 ∧
      ((splitFileIntoChunks size chunkSize).get?
          ((splitFileIntoChunks size chunkSize).length - 1)).map Prod.snd =
        some size ∧
      splitFileIntoChunks 40960 16384 =
        [(0, 16384), (16384, 32768), (32768, 40960)] ∧
      (splitFileIntoChunks 40960 16384).map (fun r => r.2 - r.1) =
        [16384, 16384, 8192] := by
  have hlen := splitFileIntoChunks_length size chunkSize
  have hmod := Nat.div_add_mod (size + chunkSize - 1) chunkSize
  have hr : (size + chunkSize - 1) % chunkSize < chunkSize :=
    Nat.mod_lt _ hcs
  refine ⟨hlen, ?_, ?_, ?_, ?_, ?_, ?_, by decide, by decide⟩
  · unfold buildFileMetadata
    exact splitFileIntoChunks_length size CHUNK_SIZE
  · intro h0
    rw [hlen, h0]
    have hdiv : (0 + chunkSize - 1) / chunkSize = 0 :=
      Nat.div_eq_of_lt (by omega)
    omega
  · exact fun i hi => splitFileIntoChunks_get? size chunkSize i hi
  · intro i hi
    rw [hlen] at hi
    set q := (size + chunkSize - 1) / chunkSize with hq
    have hiq : i + 1 < q := by omega
    have hd : q = (i + 1) + (q - (i + 1)) := by omega
    have hd1 : 1 ≤ q - (i + 1) := by omega
    have hmul : chunkSize * q =
        chunkSize * (i + 1) + chunkSize * (q - (i + 1)) := by
      conv_lhs => rw [hd]
      rw [Nat.mul_add]
    have hcsle : chunkSize ≤ chunkSize * (q - (i + 1)) :=
      Nat.le_mul_of_pos_right chunkSize (by omega)
    have hc1 : chunkSize * (i + 1) = i * chunkSize + chunkSize := by ring
    have hc2 : (i + 1) * chunkSize = i * chunkSize + chunkSize := by ring
    omega
  · have h0 : 0 < (splitFileIntoChunks size chunkSize).length := by omega
    rw [splitFileIntoChunks_get? size chunkSize 0 h0]
    simp
  · set L := (splitFileIntoChunks size chunkSize).length with hL
    have hlast : L - 1 < L := by omega
    rw [splitFileIntoChunks_get? size chunkSize (L - 1) hlast]
    simp only [Option.map_some']
    congr 1
    set q := (size + chunkSize - 1) / chunkSize with hq
    rcases Nat.eq_zero_or_pos size with h0 | hpos
    · rw [h0]
      exact Nat.min_eq_right (Nat.zero_le _)
    · have hqpos : 0 < q := by
        rw [hq]
        have hle : chunkSize ≤ size + chunkSize - 1 := by omega
        exact Nat.div_pos hle hcs
      have hLq : L = q := by omega
      have hb : (L - 1) * chunkSize + chunkSize = chunkSize * q := by
        rw [hLq]
        have hq1 : q - 1 + 1 = q := by omega
        calc (q - 1) * chunkSize + chunkSize = (q - 1 + 1) * chunkSize := by ring
          _ = q * chunkSize := by rw [hq1]
          _ = chunkSize * q := Nat.mul_comm ..
      have hsz : size ≤ chunkSize * q := by omega
      rw [hb]
      exact Nat.min_eq_right hsz

/-- Witness for C6: the theorem applied at the 40 KB / 16 KB scenario. -/
theorem splitFileIntoChunks_spec_witness :
    (splitFileIntoChunks 40960 16384).length =
        max ((40960 + 16384 - 1) / 16384) 1 ∧
      splitFileIntoChunks 40960 16384 =
        [(0, 16384), (16384, 32768), (32768, 40960)] := by
  have h := splitFileIntoChunks_spec 40960 16384 (by decide)
  exact ⟨h.1, h.2.2.2.2.2.2.2.1⟩

/-! ## Receiver pipeline (`prepareIncomingTransfer` / `handleIncomingChunk` /
`finalizeIncomingTransfer`) from `frontend/src/lib/peer.js`.

A JavaScript array with holes is modelled as `List (Option (List Nat))`:
`chunks[i]` on a hole or out of bounds reads `undefined` (here `none`), and
assignment beyond the current length extends the array.  `incomingTransfers`
is keyed by transfer id and every handler touches only the entry for the id
carried by the message, so the store is modelled by that single entry
(`Option IncomingTransfer`, `none` = id absent from the map). -/

/-- The metadata object announced in a `file-metadata` control message. -/
structure TransferMetadata where
  id : String
  name : String
  size : Nat
  type : String
  chunkSize : Nat
  totalChunks : Nat
  createdAt : Nat
deriving DecidableEq, Repr

/-- One entry of the `incomingTransfers` map. -/
structure IncomingTransfer where
  metadata : TransferMetadata
  chunks : List (Option (List Nat))
  receivedChunks : Nat
  receivedBytes : Nat
  accepted : Bool
  completed : Bool
deriving DecidableEq, Repr

/-- Reading `chunks[i]`: a hole or an out-of-bounds read is `undefined`. -/
def slotGet {α : Type} (l : List (Option α)) (i : Nat) : Option α :=
  l.getD i none

/-- Writing `chunks[i] = v`: in-bounds assignment replaces the element;
beyond the end the array grows, with holes for the skipped indices. -/
def slotSet {α : Type} (l : List (Option α)) (i : Nat) (v : α) :
    List (Option α) :=
  if i < l.length then l.set i (some v)
  else l ++ List.replicate (i - l.length) none ++ [some v]

/-- Number of filled slots. -/
def countFilled {α : Type} (l : List (Option α)) : Nat :=
  l.countP fun o => o.isSome

/-- Result of one `handleIncomingChunk` call: the surviving map entry,
whether `sendAck` transmitted an acknowledgment, and whether
`finalizeIncomingTransfer` completed the transfer (which also deletes the
entry from the map). -/
structure ChunkResult where
  transfer : Option IncomingTransfer
  ackSent : Bool
  finalized : Bool
deriving DecidableEq, Repr

/-- `handleIncomingChunk(channel, buffer, ...)` after `decodeChunkFrame`, as a
function of the decoded chunk index and payload.  Unknown transfer: warn and
return (no ack).  Not accepted: ignore (no ack).  Completed: ack only.
Otherwise fill the slot if it is empty (`!transfer.chunks[chunkIndex]`),
bumping the counters, always ack (when the channel is open), and finalize —
mark completed and delete the map entry — once `receivedChunks` equals
`totalChunks`.  `applyChunk` is the slot-update step: fill the target slot if
it is empty (`!transfer.chunks[chunkIndex]`) and bump both counters,
otherwise leave the transfer untouched (duplicate). -/
def applyChunk (t : IncomingTransfer) (chunkIndex : Nat)
    (payload : List Nat) : IncomingTransfer :=
  if (slotGet t.chunks chunkIndex).isNone = true then
    { t with
        chunks := slotSet t.chunks chunkIndex payload
        receivedChunks := t.receivedChunks + 1
        receivedBytes := t.receivedBytes + payload.length }
  else t

def handleIncomingChunk (channelOpen : Bool)
    (transfer? : Option IncomingTransfer) (chunkIndex : Nat)
    (payload : List Nat) : ChunkResult :=
  match transfer? with
  | none => ⟨none, false, false⟩
  | some t =>
    if t.accepted = false then ⟨some t, false, false⟩
    else if t.completed = true then ⟨some t, channelOpen, false⟩
    else if (applyChunk t chunkIndex payload).receivedChunks =
        (applyChunk t chunkIndex payload).metadata.totalChunks then
      ⟨none, channelOpen, true⟩
    else ⟨some (applyChunk t chunkIndex payload), channelOpen, false⟩

/-- Deliver a sequence of decoded chunk frames for one transfer id; returns
the final map entry and whether the transfer was ever finalized. -/
def processArrivals (channelOpen : Bool) :
    Option IncomingTransfer → List (Nat × List Nat) →
      Option IncomingTransfer × Bool
  | t?, [] => (t?, false)
  | t?, (i, p) :: rest =>
    let r := handleIncomingChunk channelOpen t? i p
    let s := processArrivals channelOpen r.transfer rest
    (s.1, r.finalized || s.2)

/-- The fresh accepted transfer record built by `prepareIncomingTransfer`:
a slot array of `totalChunks` empty slots and zeroed counters. -/
def mkIncomingTransfer (metadata : TransferMetadata) : IncomingTransfer :=
  { metadata := metadata
    chunks := List.replicate metadata.totalChunks none
    receivedChunks := 0
    receivedBytes := 0
    accepted := true
    completed := false }

/-- Observable side effects of the control-message handlers. -/
inductive Effect where
  | resolvedAck (transferId : String) (chunkIndex : Nat)
  | logged
  | alerted
  | sentTransferAccepted (transferId : String)
  | sentTransferRejected (transferId : String) (reason : String)
deriving DecidableEq, Repr

/-- `prepareIncomingTransfer(metadata, channel, ...)` from
`frontend/src/lib/peer.js`.  The `confirm` dialog is modelled by the
`userAccepted` input.  Declined: the map entry is untouched and a
`transfer-rejected` message is sent (channel permitting).  Accepted: whether
or not the id is already known, the stored entry becomes a fresh record for
the announced metadata — the object spread merges the announcement over the
old metadata, and the announcement carries every field — with a new empty
slot array of the announced `totalChunks`, zeroed counters, `completed`
false, `accepted` true; then a `transfer-accepted` message is sent. -/
def prepareIncomingTransfer (userAccepted channelOpen : Bool)
    (existing : Option IncomingTransfer) (metadata : TransferMetadata) :
    Option IncomingTransfer × List Effect :=
  if userAccepted = false then
    (existing,
      if channelOpen then
        [Effect.sentTransferRejected metadata.id "User declined the file transfer"]
      else [])
  else
    (some (mkIncomingTransfer metadata),
      if channelOpen then [Effect.sentTransferAccepted metadata.id] else [])

/-! ### Slot-array lemmas -/

lemma getD_set_self {α : Type} (d : α) :
    ∀ (l : List α) (i : Nat) (v : α), i < l.length → (l.set i v).getD i d = v
  | [], i, v, h => absurd h (by simp)
  | _ :: _, 0, _, _ => rfl
  | _ :: t, i + 1, v, h => getD_set_self d t i v (by simpa using h)

lemma getD_set_ne {α : Type} (d : α) :
    ∀ (l : List α) (i j : Nat) (v : α), j ≠ i →
      (l.set i v).getD j d = l.getD j d
  | [], _, _, _, _ => by simp
  | _ :: _, 0, 0, _, h => absurd rfl h
  | _ :: _, 0, _ + 1, _, _ => rfl
  | _ :: _, _ + 1, 0, _, _ => rfl
  | _ :: t, i + 1, j + 1, v, h =>
    getD_set_ne d t i j v fun hh => h (by rw [hh])

lemma getD_append_left {α : Type} (d : α) :
    ∀ (l m : List α) (i : Nat), i < l.length → (l ++ m).getD i d = l.getD i d
  | [], _, i, h => absurd h (by simp)
  | _ :: _, _, 0, _ => rfl
  | _ :: t, m, i + 1, h => getD_append_left d t m i (by simpa using h)

lemma getD_append_right {α : Type} (d : α) :
    ∀ (l m : List α) (i : Nat), l.length ≤ i →
      (l ++ m).getD i d = m.getD (i - l.length) d
  | [], _, _, _ => by simp
  | a :: t, m, 0, h => absurd h (by simp)
  | a :: t, m, i + 1, h => by
    have := getD_append_right d t m i (by simpa using h)
    simpa using this

lemma getD_of_length_le {α : Type} (d : α) :
    ∀ (l : List α) (i : Nat), l.length ≤ i → l.getD i d = d
  | [], _, _ => rfl
  | a :: t, 0, h => absurd h (by simp)
  | a :: t, i + 1, h => getD_of_length_le d t i (by simpa using h)

lemma getD_replicate_self {α : Type} (a : α) :
    ∀ (n i : Nat), (List.replicate n a).getD i a = a
  | 0, _ => rfl
  | _ + 1, 0 => rfl
  | n + 1, i + 1 => getD_replicate_self a n i

lemma slotGet_replicate {α : Type} (n i : Nat) :
    slotGet (List.replicate n (none : Option α)) i = none :=
  getD_replicate_self none n i

lemma slotGet_slotSet_self {α : Type} (l : List (Option α)) (i : Nat) (v : α) :
    slotGet (slotSet l i v) i = some v := by
  unfold slotGet slotSet
  by_cases h : i < l.length
  · rw [if_pos h]
    exact getD_set_self none l i (some v) h
  · rw [if_neg h, List.append_assoc]
    have h1 := getD_append_right (none : Option α) l
      (List.replicate (i - l.length) none ++ [some v]) i (by omega)
    rw [h1]
    have h2 := getD_append_right (none : Option α)
      (List.replicate (i - l.length) none) [some v] (i - l.length)
      (by simp)
    rw [h2]
    simp

lemma slotGet_slotSet_ne {α : Type} (l : List (Option α)) (i j : Nat) (v : α)
    (hne : j ≠ i) : slotGet (slotSet l i v) j = slotGet l j := by
  unfold slotGet slotSet
  by_cases h : i < l.length
  · rw [if_pos h]
    exact getD_set_ne none l i j (some v) hne
  · rw [if_neg h, List.append_assoc]
    by_cases hj : j < l.length
    · exact getD_append_left none l _ j hj
    · have h1 := getD_append_right (none : Option α) l
        (List.replicate (i - l.length) none ++ [some v]) j (by omega)
      rw [h1, getD_of_length_le none l j (by omega)]
      by_cases hji : j - l.length < i - l.length
      · have h2 := getD_append_left (none : Option α)
          (List.replicate (i - l.length) none) [some v] (j - l.length)
          (by simpa using hji)
        rw [h2]
        exact getD_replicate_self none _ _
      · have h3 := getD_append_right (none : Option α)
          (List.replicate (i - l.length) none) [some v] (j - l.length)
          (by simpa using hji)
        rw [h3]
        have hgt : 1 ≤ j - l.length - (List.replicate (i - l.length)
            (none : Option α)).length := by
          simp only [List.length_replicate]
          omega
        exact getD_of_length_le none [some v] _ hgt

lemma countFilled_nil {α : Type} : countFilled ([] : List (Option α)) = 0 := rfl

lemma countFilled_cons {α : Type} (a : Option α) (l : List (Option α)) :
    countFilled (a :: l) = countFilled l + if a.isSome then 1 else 0 := by
  unfold countFilled
  rw [List.countP_cons]

lemma countFilled_append {α : Type} (l m : List (Option α)) :
    countFilled (l ++ m) = countFilled l + countFilled m :=
  List.countP_append ..

lemma countFilled_replicate_none {α : Type} :
    ∀ n : Nat, countFilled (List.replicate n (none : Option α)) = 0
  | 0 => rfl
  | n + 1 => by
    rw [List.replicate_succ, countFilled_cons, countFilled_replicate_none n]
    rfl

lemma countFilled_set {α : Type} :
    ∀ (l : List (Option α)) (i : Nat) (v : α), i < l.length →
      l.getD i none = none →
      countFilled (l.set i (some v)) = countFilled l + 1
  | [], i, v, h, _ => absurd h (by simp)
  | a :: t, 0, v, _, h0 => by
    have ha : a = none := h0
    rw [List.set_cons_zero, countFilled_cons, countFilled_cons, ha]
    rfl
  | a :: t, i + 1, v, h, h0 => by
    rw [List.set_cons_succ, countFilled_cons, countFilled_cons,
      countFilled_set t i v (by simpa using h) h0]
    omega

lemma countFilled_slotSet {α : Type} (l : List (Option α)) (i : Nat) (v : α)
    (h : slotGet l i = none) :
    countFilled (slotSet l i v) = countFilled l + 1 := by
  unfold slotSet
  by_cases hlt : i < l.length
  · rw [if_pos hlt]
    exact countFilled_set l i v hlt h
  · rw [if_neg hlt, countFilled_append, countFilled_append,
      countFilled_replicate_none, countFilled_cons, countFilled_nil]
    rfl

/-! ### Claims about the receiver pipeline -/

/-- Claim C10: announcing metadata for an already-known transfer id (once the
consumer accepts the `confirm` dialog, modelled by the `true` argument) does
not leave the stored entry unchanged: the metadata is overwritten and the
state reset — a fresh empty slot array of the newly announced `totalChunks`,
both counters zeroed, `completed` false — discarding all received chunk
data. -/
theorem prepareIncomingTransfer_reset (old : IncomingTransfer)
    (md : TransferMetadata) (channelOpen : Bool) :
    (prepareIncomingTransfer true channelOpen (some old) md).1 =
      some { metadata := md
             chunks := List.replicate md.totalChunks none
             receivedChunks := 0
             receivedBytes := 0
             accepted := true
             completed := false } := rfl

/-- Claim C4 counterexample: when the duplicated chunk is the one that
completes the transfer, the second delivery gets no acknowledgment.  Here
the transfer has a single chunk: the first delivery of chunk 0 is
acknowledged and finalizes the transfer, deleting its map entry, so the
duplicate finds no transfer and `handleIncomingChunk` returns without
acknowledging — refuting "both deliveries cause an acknowledgment to be
sent". -/
theorem duplicate_final_chunk_no_ack_cex :
    (handleIncomingChunk true
        (some (mkIncomingTransfer ⟨"t1", "f", 1, "text/plain", 16384, 1, 0⟩))
        0 [7]).ackSent = true ∧
      (handleIncomingChunk true
        (some (mkIncomingTransfer ⟨"t1", "f", 1, "text/plain", 16384, 1, 0⟩))
        0 [7]).finalized = true ∧
      (handleIncomingChunk true
        (handleIncomingChunk true
          (some (mkIncomingTransfer ⟨"t1", "f", 1, "text/plain", 16384, 1, 0⟩))
          0 [7]).transfer
        0 [7]).ackSent = false := by decide

/-- Claim C4 (amended): for an accepted, uncompleted transfer with an empty
target slot, provided the first delivery does not complete the transfer,
delivering the same chunk frame twice increments `receivedChunks` and
`receivedBytes` exactly once, leaves the slot holding the first-delivered
payload, and both deliveries are acknowledged.  (If the first delivery
completes the transfer, its entry is deleted and the duplicate is dropped
without an acknowledgment.) -/
theorem handleIncomingChunk_duplicate_idempotent (t : IncomingTransfer)
    (i : Nat) (p : List Nat) (hacc : t.accepted = true)
    (hcomp : t.completed = false) (hempty : slotGet t.chunks i = none)
    (hnofin : t.receivedChunks + 1 ≠ t.metadata.totalChunks) :
    ∃ t2,
      (handleIncomingChunk true (some t) i p).ackSent = true ∧
      (handleIncomingChunk true (some t) i p).transfer = some t2 ∧
      (handleIncomingChunk true (some t2) i p).ackSent = true ∧
      (handleIncomingChunk true (some t2) i p).transfer = some t2 ∧
      t2.receivedChunks = t.receivedChunks + 1 ∧
      t2.receivedBytes = t.receivedBytes + p.length ∧
      slotGet t2.chunks i = some p := by
  set t2 : IncomingTransfer :=
    { t with
        chunks := slotSet t.chunks i p
        receivedChunks := t.receivedChunks + 1
        receivedBytes := t.receivedBytes + p.length } with ht2
  have happly : applyChunk t i p = t2 := by
    unfold applyChunk
    rw [hempty]
    rfl
  have happly2 : applyChunk t2 i p = t2 := by
    unfold applyChunk
    have hfull : slotGet t2.chunks i = some p := by
      rw [ht2]
      exact slotGet_slotSet_self t.chunks i p
    rw [hfull]
    rfl
  have hmeta : t2.metadata = t.metadata := by rw [ht2]
  have h1 : handleIncomingChunk true (some t) i p = ⟨some t2, true, false⟩ := by
    simp only [handleIncomingChunk]
    rw [if_neg (by simp [hacc]), if_neg (by simp [hcomp]), happly]
    rw [if_neg (by rw [ht2]; simpa using hnofin)]
  have h2 : handleIncomingChunk true (some t2) i p = ⟨some t2, true, false⟩ := by
    simp only [handleIncomingChunk]
    rw [if_neg (by simp [hacc]), if_neg (by simp [hcomp]), happly2]
    rw [if_neg (by rw [ht2]; simpa using hnofin)]
  refine ⟨t2, by rw [h1], by rw [h1], by rw [h2], by rw [h2], by rw [ht2],
    by rw [ht2], by rw [ht2]; exact slotGet_slotSet_self t.chunks i p⟩

/-! ### The receiver-state invariant -/

/-- Invariant tying a live accepted transfer to the set `S` of chunk indices
delivered so far: the counters match `S`, fewer than `totalChunks` distinct
indices have arrived, and exactly the slots with index in `S` are filled. -/
def goodState (total : Nat) (S : Finset Nat) (t : IncomingTransfer) : Prop :=
  t.accepted = true ∧ t.completed = false ∧ t.metadata.totalChunks = total ∧
    t.receivedChunks = S.card ∧ S.card < total ∧
    countFilled t.chunks = S.card ∧
    ∀ j, (slotGet t.chunks j).isSome = true ↔ j ∈ S

lemma applyChunk_filled (t : IncomingTransfer) (i : Nat) (p : List Nat)
    (h : (slotGet t.chunks i).isSome = true) : applyChunk t i p = t := by
  unfold applyChunk
  have hne : ¬ (slotGet t.chunks i).isNone = true := by
    cases hs : slotGet t.chunks i with
    | none => rw [hs] at h; exact absurd h (by simp)
    | some q => simp
  rw [if_neg hne]

lemma applyChunk_empty (t : IncomingTransfer) (i : Nat) (p : List Nat)
    (h : slotGet t.chunks i = none) :
    applyChunk t i p =
      { t with
          chunks := slotSet t.chunks i p
          receivedChunks := t.receivedChunks + 1
          receivedBytes := t.receivedBytes + p.length } := by
  unfold applyChunk
  rw [h]
  rfl

lemma step_filled (total : Nat) (S : Finset Nat) (t : IncomingTransfer)
    (hg : goodState total S t) (i : Nat) (p : List Nat) (hi : i ∈ S) :
    handleIncomingChunk true (some t) i p = ⟨some t, true, false⟩ := by
  obtain ⟨hacc, hcomp, htot, hrc, hlt, -, hslots⟩ := hg
  have ha := applyChunk_filled t i p ((hslots i).mpr hi)
  simp only [handleIncomingChunk]
  rw [if_neg (by simp [hacc]), if_neg (by simp [hcomp]), ha,
    if_neg (by rw [hrc, htot]; omega)]

lemma step_new (total : Nat) (S : Finset Nat) (t : IncomingTransfer)
    (hg : goodState total S t) (i : Nat) (p : List Nat)
    (hempty : slotGet t.chunks i = none) (hlt2 : S.card + 1 < total) :
    handleIncomingChunk true (some t) i p =
      ⟨some (applyChunk t i p), true, false⟩ := by
  obtain ⟨hacc, hcomp, htot, hrc, hlt, -, -⟩ := hg
  have ha := applyChunk_empty t i p hempty
  simp only [handleIncomingChunk]
  rw [if_neg (by simp [hacc]), if_neg (by simp [hcomp]),
    if_neg (by rw [ha]; simp only []; rw [hrc, htot]; omega)]

lemma step_new_last (total : Nat) (S : Finset Nat) (t : IncomingTransfer)
    (hg : goodState total S t) (i : Nat) (p : List Nat)
    (hempty : slotGet t.chunks i = none) (hlast : S.card + 1 = total) :
    handleIncomingChunk true (some t) i p = ⟨none, true, true⟩ := by
  obtain ⟨hacc, hcomp, htot, hrc, hlt, -, -⟩ := hg
  have ha := applyChunk_empty t i p hempty
  simp only [handleIncomingChunk]
  rw [if_neg (by simp [hacc]), if_neg (by simp [hcomp]),
    if_pos (by rw [ha]; simp only []; rw [hrc, htot]; omega)]

lemma goodState_insert (total : Nat) (S : Finset Nat) (t : IncomingTransfer)
    (i : Nat) (p : List Nat) (hg : goodState total S t) (hi : i ∉ S)
    (hempty : slotGet t.chunks i = none) (hlt2 : S.card + 1 < total) :
    goodState total (insert i S) (applyChunk t i p) := by
  obtain ⟨hacc, hcomp, htot, hrc, hlt, hcf, hslots⟩ := hg
  rw [applyChunk_empty t i p hempty]
  have hcard : (insert i S).card = S.card + 1 := Finset.card_insert_of_not_mem hi
  refine ⟨hacc, hcomp, htot, by rw [hcard, hrc], by omega, ?_, ?_⟩
  · rw [hcard]
    show countFilled (slotSet t.chunks i p) = S.card + 1
    rw [countFilled_slotSet t.chunks i p hempty, hcf]
  · intro j
    show (slotGet (slotSet t.chunks i p) j).isSome = true ↔ j ∈ insert i S
    rcases eq_or_ne j i with rfl | hne
    · rw [slotGet_slotSet_self]
      simp
    · rw [slotGet_slotSet_ne t.chunks i j p hne, Finset.mem_insert]
      rw [hslots j]
      constructor
      · exact Or.inr
      · rintro (rfl | hj)
        · exact absurd rfl hne
        · exact hj

lemma processArrivals_none (rest : List (Nat × List Nat)) :
    processArrivals true none rest = (none, false) := by
  induction rest with
  | nil => rfl
  | cons a rest ih =>
    obtain ⟨i, p⟩ := a
    show ((processArrivals true
        (handleIncomingChunk true none i p).transfer rest).1,
      (handleIncomingChunk true none i p).finalized ||
        (processArrivals true
          (handleIncomingChunk true none i p).transfer rest).2) = (none, false)
    rw [show handleIncomingChunk true none i p = ⟨none, false, false⟩ from rfl]
    rw [ih]
    rfl

lemma processArrivals_cons (t? : Option IncomingTransfer) (i : Nat)
    (p : List Nat) (rest : List (Nat × List Nat)) :
    processArrivals true t? ((i, p) :: rest) =
      ((processArrivals true (handleIncomingChunk true t? i p).transfer rest).1,
        (handleIncomingChunk true t? i p).finalized ||
          (processArrivals true
            (handleIncomingChunk true t? i p).transfer rest).2) := rfl

lemma processArrivals_goodState (total : Nat) :
    ∀ (arrivals : List (Nat × List Nat)) (S : Finset Nat)
      (t : IncomingTransfer), goodState total S t →
      ((processArrivals true (some t) arrivals).2 = true ↔
        total ≤ (S ∪ (arrivals.map Prod.fst).toFinset).card) ∧
      (∀ t', (processArrivals true (some t) arrivals).1 = some t' →
        ∃ S', goodState total S' t') := by
  intro arrivals
  induction arrivals with
  | nil =>
    intro S t hg
    have hlt : S.card < total := hg.2.2.2.2.1
    refine ⟨?_, ?_⟩
    · rw [show processArrivals true (some t) [] = (some t, false) from rfl]
      simp only [List.map_nil, List.toFinset_nil, Finset.union_empty]
      constructor
      · intro h
        exact absurd h (by simp)
      · intro h
        omega
    · intro t' ht'
      rw [show processArrivals true (some t) [] = (some t, false) from rfl] at ht'
      obtain rfl : t = t' := by injection ht'
      exact ⟨S, hg⟩
  | cons a rest ih =>
    obtain ⟨i, p⟩ := a
    intro S t hg
    by_cases hi : i ∈ S
    · have hstep := step_filled total S t hg i p hi
      rw [processArrivals_cons, hstep]
      simp only [Bool.false_or]
      have hih := ih S t hg
      have hset : S ∪ (((i, p) :: rest).map Prod.fst).toFinset =
          S ∪ (rest.map Prod.fst).toFinset := by
        rw [List.map_cons, List.toFinset_cons, Finset.union_insert,
          Finset.insert_eq_self.mpr (Finset.mem_union_left _ hi)]
      exact ⟨by rw [hset]; exact hih.1, hih.2⟩
    · have hempty : slotGet t.chunks i = none := by
        have hiff := hg.2.2.2.2.2.2 i
        cases hs : slotGet t.chunks i with
        | none => rfl
        | some q =>
          rw [hs] at hiff
          exact absurd (hiff.mp rfl) hi
      have hlt : S.card < total := hg.2.2.2.2.1
      rcases Nat.lt_or_ge (S.card + 1) total with hlt2 | hge
      · have hstep := step_new total S t hg i p hempty hlt2
        have hg' := goodState_insert total S t i p hg hi hempty hlt2
        have hih := ih (insert i S) (applyChunk t i p) hg'
        rw [processArrivals_cons, hstep]
        simp only [Bool.false_or]
        have hset : insert i S ∪ (rest.map Prod.fst).toFinset =
            S ∪ (((i, p) :: rest).map Prod.fst).toFinset := by
          rw [List.map_cons, List.toFinset_cons, Finset.union_insert,
            Finset.insert_union]
        exact ⟨by rw [← hset]; exact hih.1, hih.2⟩
      · have hlast : S.card + 1 = total := by omega
        have hstep := step_new_last total S t hg i p hempty hlast
        rw [processArrivals_cons, hstep]
        simp only [Bool.true_or]
        rw [processArrivals_none rest]
        refine ⟨?_, ?_⟩
        · constructor
          · intro _
            have hsub : insert i S ⊆
                S ∪ (((i, p) :: rest).map Prod.fst).toFinset := by
              intro x hx
              rcases Finset.mem_insert.mp hx with rfl | hxS
              · refine Finset.mem_union_right _ ?_
                rw [List.map_cons, List.toFinset_cons]
                exact Finset.mem_insert_self ..
              · exact Finset.mem_union_left _ hxS
            have hcard := Finset.card_le_card hsub
            rw [Finset.card_insert_of_not_mem hi] at hcard
            omega
          · intro _
            trivial
        · intro t' ht'
          exact absurd ht' (by simp)

lemma goodState_fresh (md : TransferMetadata) (htot : 0 < md.totalChunks) :
    goodState md.totalChunks ∅ (mkIncomingTransfer md) := by
  refine ⟨rfl, rfl, rfl, by simp [mkIncomingTransfer], by simpa using htot,
    ?_, ?_⟩
  · show countFilled (List.replicate md.totalChunks none) = (∅ : Finset Nat).card
    rw [countFilled_replicate_none]
    simp
  · intro j
    show (slotGet (List.replicate md.totalChunks none) j).isSome = true ↔
      j ∈ (∅ : Finset Nat)
    rw [slotGet_replicate]
    simp

/-- Claim C5 (amended): starting from a freshly accepted incoming transfer
with `totalChunks ≥ 1`, after every sequence of chunk arrivals the invariant
holds — `receivedChunks` equals the number of non-empty slots — and the
transfer is finalized (reassembled, marked completed, its entry deleted) if
and only if at least `totalChunks` *distinct chunk indices* have been
delivered after acceptance.  The indices need not lie in
`0..totalChunks-1`: the code never range-checks `chunkIndex`, so
out-of-range indices count towards completion (which is what refutes the
claim as originally stated). -/
theorem incoming_invariant_and_completeness (md : TransferMetadata)
    (htot : 0 < md.totalChunks) (arrivals : List (Nat × List Nat)) :
    (∀ t', (processArrivals true (some (mkIncomingTransfer md)) arrivals).1 =
        some t' → t'.receivedChunks = countFilled t'.chunks) ∧
      ((processArrivals true (some (mkIncomingTransfer md)) arrivals).2 = true ↔
        md.totalChunks ≤ ((arrivals.map Prod.fst).toFinset).card) := by
  have h := processArrivals_goodState md.totalChunks arrivals ∅
    (mkIncomingTransfer md) (goodState_fresh md htot)
  constructor
  · intro t' ht'
    obtain ⟨S', hS'⟩ := h.2 t' ht'
    rw [hS'.2.2.2.1, hS'.2.2.2.2.2.1]
  · rw [h.1, Finset.empty_union]

/-- Claim C5 counterexample: a freshly accepted transfer with
`totalChunks = 1` is finalized by a single arrival carrying the
out-of-range chunk index 1, even though index 0 — the only chunk of the
file — was never delivered: "completed only if all `totalChunks` distinct
chunk indices have been delivered" fails on the as-written reading (indices
`0..totalChunks-1`). -/
theorem incoming_oob_completes_cex :
    (processArrivals true
        (some (mkIncomingTransfer ⟨"t3", "h", 1, "text/plain", 1, 1, 0⟩))
        [(1, [7])]).2 = true ∧
      [(1, [7])].map Prod.fst = [1] ∧
      ¬ (0 : Nat) ∈ [(1, [7])].map Prod.fst := by decide

/-- Witness for C5's amended theorem at a concrete partial delivery. -/
theorem incoming_invariant_and_completeness_witness :
    (∀ t', (processArrivals true
        (some (mkIncomingTransfer ⟨"t4", "k", 2, "text/plain", 1, 2, 0⟩))
        [(0, [1])]).1 = some t' →
          t'.receivedChunks = countFilled t'.chunks) ∧
      ((processArrivals true
        (some (mkIncomingTransfer ⟨"t4", "k", 2, "text/plain", 1, 2, 0⟩))
        [(0, [1])]).2 = true ↔
        (2 : Nat) ≤ (([(0, [1])].map (Prod.fst (β := List Nat))).toFinset).card) :=
  incoming_invariant_and_completeness
    ⟨"t4", "k", 2, "text/plain", 1, 2, 0⟩ (by decide) [(0, [1])]

/-! ## Sender pipeline (`sendChunksOverDataChannel`) -/

/-- `RETRY_LIMIT = 5` from `frontend/src/lib/peer.js`. -/
def RETRY_LIMIT : Nat := 5

/-- One chunk's `while (attempt <= RETRY_LIMIT)` send/ack loop.  `ok a`
says whether the `waitForAck` at attempt number `a` succeeds; `fuel` is the
number of loop iterations still allowed (`RETRY_LIMIT + 1` at entry, since
`attempt` starts at 0 and the loop runs while `attempt ≤ RETRY_LIMIT`).
Returns the attempt numbers at which `channel.send(frame)` ran, and whether
the chunk was eventually acknowledged (`false` = retries exhausted, the
error is rethrown to the caller). -/
def sendChunkAttempts (ok : Nat → Bool) : Nat → Nat → List Nat × Bool
  | _, 0 => ([], false)
  | a, fuel + 1 =>
    if ok a then ([a], true)
    else (a :: (sendChunkAttempts ok (a + 1) fuel).1,
      (sendChunkAttempts ok (a + 1) fuel).2)

/-- The chunk loop of `sendChunksOverDataChannel` over chunk indices
`start, start + 1, ...` (`count` of them); `outcomes i a` is the result of
the ack wait for chunk `i` at attempt `a`.  Returns the trace of frame
sends as `(chunkIndex, attempt)` pairs and whether the loop ran to
completion (`false` = some chunk exhausted its retries and the error
propagated out of `sendChunksOverDataChannel`, failing the transfer; later
chunks are never sent).  The loop consults nothing besides the ack
outcomes: no rejection information is read anywhere. -/
def sendLoop (outcomes : Nat → Nat → Bool) : Nat → Nat → List (Nat × Nat) × Bool
  | _, 0 => ([], true)
  | start, count + 1 =>
    if (sendChunkAttempts (outcomes start) 0 (RETRY_LIMIT + 1)).2 then
      (((sendChunkAttempts (outcomes start) 0 (RETRY_LIMIT + 1)).1.map
          fun a => (start, a)) ++ (sendLoop outcomes (start + 1) count).1,
        (sendLoop outcomes (start + 1) count).2)
    else
      ((sendChunkAttempts (outcomes start) 0 (RETRY_LIMIT + 1)).1.map
        fun a => (start, a), false)

lemma sendChunkAttempts_all_fail (ok : Nat → Bool) (hfail : ∀ a, ok a = false) :
    ∀ (fuel a : Nat), (sendChunkAttempts ok a fuel).1.length = fuel ∧
      (sendChunkAttempts ok a fuel).2 = false
  | 0, a => ⟨rfl, rfl⟩
  | fuel + 1, a => by
    have ih := sendChunkAttempts_all_fail ok hfail fuel (a + 1)
    simp only [sendChunkAttempts, hfail a, if_false]
    exact ⟨by simp [ih.1], ih.2⟩

lemma sendChunkAttempts_succeeds (ok : Nat → Bool) :
    ∀ (fuel a0 : Nat), (∃ a, a0 ≤ a ∧ a < a0 + fuel ∧ ok a = true) →
      (sendChunkAttempts ok a0 fuel).2 = true
  | 0, a0, h => by
    obtain ⟨a, h1, h2, _⟩ := h
    omega
  | fuel + 1, a0, h => by
    by_cases h0 : ok a0 = true
    · simp [sendChunkAttempts, h0]
    · have hnext : ∃ a, a0 + 1 ≤ a ∧ a < (a0 + 1) + fuel ∧ ok a = true := by
        obtain ⟨a, h1, h2, h3⟩ := h
        refine ⟨a, ?_, by omega, h3⟩
        rcases Nat.eq_or_lt_of_le h1 with rfl | hlt
        · exact absurd h3 h0
        · omega
      have ih := sendChunkAttempts_succeeds ok fuel (a0 + 1) hnext
      simp only [sendChunkAttempts, if_neg h0]
      exact ih

lemma filter_tag_eq (k : Nat) (l : List Nat) :
    ((l.map fun a => ((k, a) : Nat × Nat)).filter
      fun e => decide (e.1 = k)).length = l.length := by
  induction l with
  | nil => rfl
  | cons a l ih => simp [ih]

lemma filter_tag_ne (k j : Nat) (hne : j ≠ k) (l : List Nat) :
    ((l.map fun a => ((j, a) : Nat × Nat)).filter
      fun e => decide (e.1 = k)) = [] := by
  induction l with
  | nil => rfl
  | cons a l ih => simp [hne, ih]

lemma sendLoop_fail_spec (outcomes : Nat → Nat → Bool) (k : Nat)
    (hfail : ∀ a, outcomes k a = false) :
    ∀ (count start : Nat), start ≤ k → k < start + count →
      (∀ j, start ≤ j → j < k →
        ∃ a, a ≤ RETRY_LIMIT ∧ outcomes j a = true) →
      ((sendLoop outcomes start count).1.filter
          fun e => decide (e.1 = k)).length = RETRY_LIMIT + 1 ∧
        (sendLoop outcomes start count).2 = false
  | 0, start, hle, hlt, _ => by omega
  | count + 1, start, hle, hlt, hprev => by
    rcases Nat.eq_or_lt_of_le hle with rfl | hlt2
    · have hall := sendChunkAttempts_all_fail (outcomes start) hfail
        (RETRY_LIMIT + 1) 0
      simp only [sendLoop]
      rw [if_neg (by rw [hall.2]; simp)]
      refine ⟨?_, rfl⟩
      rw [filter_tag_eq start]
      exact hall.1
    · have hsucc : (sendChunkAttempts (outcomes start) 0 (RETRY_LIMIT + 1)).2 =
          true := by
        obtain ⟨a, ha1, ha2⟩ := hprev start (le_refl _) hlt2
        exact sendChunkAttempts_succeeds (outcomes start) (RETRY_LIMIT + 1) 0
          ⟨a, by omega, by omega, ha2⟩
      have ih := sendLoop_fail_spec outcomes k hfail count (start + 1)
        (by omega) (by omega) (fun j hj1 hj2 => hprev j (by omega) hj2)
      simp only [sendLoop]
      rw [if_pos hsucc]
      refine ⟨?_, ih.2⟩
      rw [List.filter_append, List.length_append,
        filter_tag_ne k start (by omega), ih.1]
      rfl

/-- Witness for C4's amended theorem at a concrete two-chunk transfer. -/
theorem handleIncomingChunk_duplicate_idempotent_witness :
    ∃ t2,
      (handleIncomingChunk true
          (some (mkIncomingTransfer ⟨"t2", "g", 2, "text/plain", 1, 2, 0⟩))
          0 [9]).ackSent = true ∧
        (handleIncomingChunk true
          (some (mkIncomingTransfer ⟨"t2", "g", 2, "text/plain", 1, 2, 0⟩))
          0 [9]).transfer = some t2 ∧
        (handleIncomingChunk true (some t2) 0 [9]).ackSent = true ∧
        (handleIncomingChunk true (some t2) 0 [9]).transfer = some t2 ∧
        t2.receivedChunks = 0 + 1 ∧
        t2.receivedBytes = 0 + [9].length ∧
        slotGet t2.chunks 0 = some [9] :=
  handleIncomingChunk_duplicate_idempotent
    (mkIncomingTransfer ⟨"t2", "g", 2, "text/plain", 1, 2, 0⟩) 0 [9]
    rfl rfl (by decide) (by decide)

/-- Claim C3: if every acknowledgment wait for chunk `k` fails by timeout
(`outcomes k a = false` for every attempt `a`), while each earlier chunk is
acknowledged within the retry budget (otherwise the loop never reaches
chunk `k`), then the sender performs exactly `RETRY_LIMIT + 1 = 6` send
attempts of that same chunk and then fails the whole transfer: the loop
rethrows the error to the caller instead of completing. -/
theorem chunk_retry_bound (outcomes : Nat → Nat → Bool) (n k : Nat)
    (hk : k < n) (hfail : ∀ a, outcomes k a = false)
    (hprev : ∀ j, j < k → ∃ a, a ≤ RETRY_LIMIT ∧ outcomes j a = true) :
    ((sendLoop outcomes 0 n).1.filter fun e => decide (e.1 = k)).length =
        RETRY_LIMIT + 1 ∧
      (sendLoop outcomes 0 n).2 = false :=
  sendLoop_fail_spec outcomes k hfail n 0 (Nat.zero_le k) (by omega)
    fun j _ hj2 => hprev j hj2

/-- Witness for C3: a one-chunk transfer whose ack never arrives is sent
6 times and the transfer fails. -/
theorem chunk_retry_bound_witness :
    ((sendLoop (fun _ _ => false) 0 1).1.filter fun e => decide (e.1 = 0)).length =
        RETRY_LIMIT + 1 ∧
      (sendLoop (fun _ _ => false) 0 1).2 = false :=
  chunk_retry_bound (fun _ _ => false) 1 0 (by decide) (fun _ => rfl)
    fun j hj => absurd hj (by omega)

/-! ## Control messages (`handleControlMessage`) from
`frontend/src/lib/peer.js`.

State touched by the handler: whether the channel is open, the set of
pending ack records (`pendingAcks` keys, `transferId:chunkIndex`), and the
`incomingTransfers` entry for the id the message refers to.  The `confirm`
dialog shown for `file-metadata` is an input (`userAccepts`). -/

structure PeerState where
  channelOpen : Bool
  pendingAcks : List (String × Nat)
  incoming : Option IncomingTransfer
deriving DecidableEq, Repr

/-- `resolveAck(message)`: look up the pending ack by key; if absent the
message is ignored (stale or duplicate), otherwise the record is removed
and its promise resolved. -/
def resolveAck (st : PeerState) (transferId : String) (chunkIndex : Nat) :
    PeerState × List Effect :=
  if (transferId, chunkIndex) ∈ st.pendingAcks then
    ({ st with
        pendingAcks := st.pendingAcks.filter
          fun e => decide (e ≠ (transferId, chunkIndex)) },
      [Effect.resolvedAck transferId chunkIndex])
  else (st, [])

/-- The parsed control messages dispatched by `handleControlMessage`. -/
inductive ControlMessage where
  | chunkAck (transferId : String) (chunkIndex : Nat)
  | chunkError (reason : String)
  | transferComplete (transferId : String)
  | fileMetadata (metadata : TransferMetadata)
  | transferRejected (transferId : String) (reason : String)
  | transferAccepted (transferId : String)
  | unhandled
deriving DecidableEq, Repr

/-- `handleControlMessage(text, channel, ...)` from
`frontend/src/lib/peer.js`, after JSON parsing.  Crucially, the
`transfer-rejected` case only logs a console warning and shows an alert:
no transfer state is discarded, no pending ack is rejected, and nothing
tells `sendChunksOverDataChannel` to stop. -/
def handleControlMessage (userAccepts : Bool) (st : PeerState)
    (msg : ControlMessage) : PeerState × List Effect :=
  match msg with
  | .chunkAck transferId chunkIndex => resolveAck st transferId chunkIndex
  | .chunkError _ => (st, [Effect.logged])
  | .transferComplete _ => (st, [Effect.logged])
  | .fileMetadata metadata =>
    ({ st with
        incoming := (prepareIncomingTransfer userAccepts st.channelOpen
          st.incoming metadata).1 },
      (prepareIncomingTransfer userAccepts st.channelOpen st.incoming
        metadata).2)
  | .transferRejected _ _ => (st, [Effect.logged, Effect.alerted])
  | .transferAccepted _ => (st, [Effect.logged])
  | .unhandled => (st, [Effect.logged])

lemma sendChunkAttempts_cons (ok : Nat → Bool) (a fuel : Nat) :
    ∃ tl, (sendChunkAttempts ok a (fuel + 1)).1 = a :: tl := by
  by_cases hok : ok a = true
  · exact ⟨[], by simp [sendChunkAttempts, hok]⟩
  · exact ⟨(sendChunkAttempts ok (a + 1) fuel).1,
      by simp [sendChunkAttempts, hok]⟩

lemma sendLoop_first_send (outcomes : Nat → Nat → Bool) (m : Nat) :
    (sendLoop outcomes 0 (m + 1)).1.head? = some (0, 0) := by
  obtain ⟨tl, htl⟩ := sendChunkAttempts_cons (outcomes 0) 0 RETRY_LIMIT
  simp only [sendLoop]
  by_cases h : (sendChunkAttempts (outcomes 0) 0 (RETRY_LIMIT + 1)).2 = true
  · rw [if_pos h, htl]
    rfl
  · rw [if_neg h, htl]
    rfl

/-- Claim C2 counterexample: a `transfer-rejected` control message arriving
before any chunk has been sent does not abort the sender.  Handling the
rejection for transfer id "t5" returns the state completely unchanged (it
only logs and alerts), and the sender loop — a function of the ack outcomes
alone, with no rejection input — still sends chunk frame 0 (the trace of a
one-chunk transfer begins with send `(0, 0)`) and runs to completion,
refuting "aborts immediately ... and never sends chunk frame 0". -/
theorem rejection_ignored_cex :
    handleControlMessage true ⟨true, [("t5", 0)], none⟩
        (ControlMessage.transferRejected "t5" "declined") =
      (⟨true, [("t5", 0)], none⟩, [Effect.logged, Effect.alerted]) ∧
      (sendLoop (fun _ _ => true) 0 1).1 = [(0, 0)] ∧
      (sendLoop (fun _ _ => true) 0 1).2 = true := by decide

/-- Claim C2 (amended): the sender does not react to `transfer-rejected` at
all.  `handleControlMessage` returns the peer state unchanged — no transfer
transitions to a rejected state, no state is discarded, no pending ack is
failed; the only effects are a console warning and a user-facing alert —
and the send loop, which consults nothing but the ack outcomes, still sends
chunk frame 0 first whenever there is at least one chunk.  The transfer can
only terminate later through ack timeouts and retry exhaustion. -/
theorem transfer_rejected_no_abort (userAccepts : Bool) (st : PeerState)
    (transferId reason : String) (outcomes : Nat → Nat → Bool) (n : Nat)
    (hn : 0 < n) :
    handleControlMessage userAccepts st
        (ControlMessage.transferRejected transferId reason) =
      (st, [Effect.logged, Effect.alerted]) ∧
      (sendLoop outcomes 0 n).1.head? = some (0, 0) := by
  obtain ⟨m, rfl⟩ : ∃ m, n = m + 1 := ⟨n - 1, by omega⟩
  exact ⟨rfl, sendLoop_first_send outcomes m⟩

/-- Witness for C2's amended theorem at a concrete state and transfer. -/
theorem transfer_rejected_no_abort_witness :
    handleControlMessage false ⟨true, [("t7", 2)], none⟩
        (ControlMessage.transferRejected "t7" "busy") =
      (⟨true, [("t7", 2)], none⟩, [Effect.logged, Effect.alerted]) ∧
      (sendLoop (fun _ _ => false) 0 2).1.head? = some (0, 0) :=
  transfer_rejected_no_abort false ⟨true, [("t7", 2)], none⟩ "t7" "busy"
    (fun _ _ => false) 2 (by decide)

/-! ## Channel close (`cleanupOnChannelClose` in the legacy
`frontend/peer.js` versus `configureDataChannel` in
`frontend/src/lib/peer.js`) -/

/-- Effects observable when a data channel closes. -/
inductive CloseEffect where
  | ackRejected (transferId : String) (chunkIndex : Nat) (reason : String)
  | logged
deriving DecidableEq, Repr

/-- `cleanupOnChannelClose(channel)` from the legacy `frontend/peer.js`:
`for (const [key, pending] of pendingAcks.entries())` reject the pending ack
with a "Data channel closed" error and delete the record. -/
def cleanupOnChannelClose :
    List (String × Nat) → List (String × Nat) × List CloseEffect
  | [] => ([], [])
  | k :: rest =>
    ((cleanupOnChannelClose rest).1,
      CloseEffect.ackRejected k.1 k.2 "Data channel closed" ::
        (cleanupOnChannelClose rest).2)

/-- The `onclose` handler installed by `configureDataChannel` in
`frontend/src/lib/peer.js`: `channel.onclose = () => console.log(...)`.
It only logs; the pending-ack records are untouched. -/
def configureDataChannelOnClose (pendingAcks : List (String × Nat)) :
    List (String × Nat) × List CloseEffect :=
  (pendingAcks, [CloseEffect.logged])

/-- Claim C7 counterexample: in `frontend/src/lib/peer.js` — the frontend
whose `configureDataChannel` the claim cites — closing the data channel
while the ack for chunk 3 is pending does *not* fail that ack: the close
handler only logs, the pending record survives, and no channel-closed
rejection is delivered (the wait can only fail later by its own 10-second
timeout). -/
theorem lib_close_leaves_acks_pending_cex :
    configureDataChannelOnClose [("t6", 3)] =
      ([("t6", 3)], [CloseEffect.logged]) ∧
      ∀ e ∈ (configureDataChannelOnClose [("t6", 3)]).2,
        e ≠ CloseEffect.ackRejected "t6" 3 "Data channel closed" := by decide

/-- Claim C7 (amended): only the legacy `frontend/peer.js` implements the
claimed cleanup: its `cleanupOnChannelClose` empties the pending-ack map
and fails every formerly pending acknowledgment with a "Data channel
closed" error, so no sender awaits forever there.  In
`frontend/src/lib/peer.js` the close handler merely logs and returns the
pending-ack map unchanged: pending waits are not failed at close time and
fail only via the ack timeout. -/
theorem cleanupOnChannelClose_rejects_all (pendingAcks : List (String × Nat)) :
    (cleanupOnChannelClose pendingAcks).1 = [] ∧
      (cleanupOnChannelClose pendingAcks).2 = pendingAcks.map
        (fun k => CloseEffect.ackRejected k.1 k.2 "Data channel closed") ∧
      configureDataChannelOnClose pendingAcks =
        (pendingAcks, [CloseEffect.logged]) := by
  refine ⟨?_, ?_, rfl⟩
  · induction pendingAcks with
    | nil => rfl
    | cons k rest ih => exact ih
  · induction pendingAcks with
    | nil => rfl
    | cons k rest ih =>
      show CloseEffect.ackRejected k.1 k.2 "Data channel closed" ::
          (cleanupOnChannelClose rest).2 = _
      rw [List.map_cons, ih]

end Snapit
